import Mathlib

/-!
Verification of the Panasonic Viera ioBroker adapter core
(`lib/viera-client.js`) against its natural-language specification.

The JavaScript source is shallowly embedded: JS strings become `List Char`,
promise resolution/rejection becomes `Except`, subprocess results become
explicit outcome values, and the JS regular expressions used by the source
are implemented as explicit leftmost-match scanners over character lists.
-/

namespace Viera

/-- JS whitespace class `\s` restricted to the ASCII whitespace characters
(space, tab, newline, carriage return, vertical tab, form feed). -/
def isWs (c : Char) : Bool :=
  c = ' ' || c = '\t' || c = '\n' || c = '\r' || c = '\x0b' || c = '\x0c'

/-- JS `String.prototype.trim`: drop whitespace from both ends. -/
def jsTrim (l : List Char) : List Char :=
  ((l.dropWhile isWs).reverse.dropWhile isWs).reverse

/-- JS `str.split('\n')`: split on every newline, keeping empty segments. -/
def splitNl : List Char → List (List Char)
  | [] => [[]]
  | c :: rest =>
    if c = '\n' then [] :: splitNl rest
    else
      match splitNl rest with
      | [] => [[c]]
      | h :: t => (c :: h) :: t

/-- Leftmost-match regex scan: try the anchored pattern `f` at every start
position, left to right, returning the first success (JS `String.match`
without the global flag). -/
def scanFirst (f : List Char → Option α) : List Char → Option α
  | [] => none
  | c :: rest =>
    match f (c :: rest) with
    | some v => some v
    | none => scanFirst f rest

/-- Strip the literal `pat` from the front of `s` (case-sensitive). -/
def stripLit : List Char → List Char → Option (List Char)
  | [], s => some s
  | _ :: _, [] => none
  | p :: ps, c :: cs => if c = p then stripLit ps cs else none

/-- Strip the literal `pat` from the front of `s`, ignoring ASCII case
(models a case-insensitive JS regex literal). -/
def stripCaseless : List Char → List Char → Option (List Char)
  | [], s => some s
  | _ :: _, [] => none
  | p :: ps, c :: cs => if c.toLower = p.toLower then stripCaseless ps cs else none

/-- Anchored match of the JS regex fragment `\s*(.+)` at the start of `t`,
returning the (untrimmed) capture.  `\s*` is greedy; `.+` needs at least one
non-newline character, so when everything after the whitespace run is gone the
engine backtracks to capture the last non-newline whitespace character. -/
def wsCapture (t : List Char) : Option (List Char) :=
  let p := t.takeWhile isWs
  let r := t.drop p.length
  if r.isEmpty then
    match p.reverse.find? (fun c => !(c = '\n')) with
    | some c => some [c]
    | none => none
  else
    some (r.takeWhile (fun c => !(c = '\n')))

/-- Digit character test (JS `\d`). -/
def isDigitCh (c : Char) : Bool := '0' ≤ c && c ≤ '9'

/-- Numeric value of a digit character. -/
def digitVal (c : Char) : Nat := c.toNat - '0'.toNat

/-- Value of a decimal digit string (JS `parseInt(s, 10)` on an all-digit
string, modelled exactly over ℕ). -/
def digitsVal (ds : List Char) : Nat := ds.foldl (fun a c => 10 * a + digitVal c) 0

/-- Decimal digits of `n`, most significant first, as numbers (fuel-driven;
the wrapper `natDigits` always supplies enough fuel). -/
def natDigitsF : Nat → Nat → List Nat
  | 0, _ => []
  | fuel + 1, n => if n < 10 then [n] else natDigitsF fuel (n / 10) ++ [n % 10]

/-- Decimal digits of `n`, most significant first. -/
def natDigits (n : Nat) : List Nat := natDigitsF (n + 1) n

/-- The character for a single decimal digit. -/
def digitCh (d : Nat) : Char := Char.ofNat ('0'.toNat + d)

/-- JS `String(n)` for a natural number: its decimal representation. -/
def natToStr (n : Nat) : List Char := (natDigits n).map digitCh

/-- JS `String(i)` / template interpolation for an integer. -/
def intToStr (i : Int) : List Char :=
  if i < 0 then '-' :: natToStr (-i).toNat else natToStr i.toNat

/-!  ## `sendKey` (viera-client.js lines 72–80)

`const keyEvent = key.startsWith('NRC_') ? key : `NRC_${key}-ONOFF`;`
-/

/-- The vendor key token head `NRC_`. -/
def nrcHead : List Char := 'N' :: 'R' :: 'C' :: '_' :: []

/-- Key normalization performed by `sendKey`: a bare key name becomes
`NRC_<NAME>-ONOFF`; an already `NRC_`-prefixed token passes unchanged. -/
def normalizeKey (key : List Char) : List Char :=
  if nrcHead.isPrefixOf key then key else nrcHead ++ key ++ "-ONOFF".toList

/-- The wire `<X_KeyEvent>` body fragment built by `sendKey`. -/
def sendKeyBody (key : List Char) : List Char :=
  "<X_KeyEvent>".toList ++ normalizeKey key ++ "</X_KeyEvent>".toList

/-!  ## `setVolume` (viera-client.js lines 99–107)

`level = Math.max(0, Math.min(100, Math.round(level)));`
then the SOAP body interpolates `${level}` into `<DesiredVolume>`.
-/

/-- JS `Math.round`: round half toward positive infinity, `⌊x + 1/2⌋`. -/
def jsRound (q : ℚ) : ℤ := ⌊q + 1 / 2⌋

/-- The clamped, rounded level computed by `setVolume`. -/
def setVolumeLevel (v : ℚ) : ℤ := max 0 (min 100 (jsRound v))

/-- The SOAP body fragment sent by `setVolume`. -/
def setVolumeBody (v : ℚ) : List Char :=
  "<InstanceID>0</InstanceID><Channel>Master</Channel><DesiredVolume>".toList
    ++ intToStr (setVolumeLevel v)
    ++ "</DesiredVolume>".toList

/-- Spec-side clamp, following the spec words `clamp(round(v), 0, 100)`:
values below the lower bound become the lower bound, values above the upper
bound become the upper bound. -/
def specClamp (x lo hi : ℤ) : ℤ := if x < lo then lo else if hi < x then hi else x

/-!  ## `isAvailable` (viera-client.js lines 138–162)

The promise executor only ever calls `resolve`: status events resolve with
`statusCode === 200`, `error` and `timeout` events resolve with `false`.
-/

/-- Outcome of the plain HTTP GET issued by `isAvailable`. -/
inductive HttpOutcome where
  | response (status : Nat) (body : List Char)
  | connError (msg : List Char)
  | timedOut
deriving DecidableEq

/-- The HTTP status carried by an outcome, if any. -/
def HttpOutcome.statusOf : HttpOutcome → Option Nat
  | .response s _ => some s
  | _ => none

/-- Behaviour of `isAvailable` viewed as a function from the request outcome to the
settled promise: the executor resolves (never rejects), with `true` exactly
on HTTP 200. -/
def isAvailable : HttpOutcome → Except (List Char) Bool
  | .response s _ => .ok (s = 200)
  | .connError _ => .ok false
  | .timedOut => .ok false

/-!  ## `getVolume` (viera-client.js lines 85–94)

`response.match(/<CurrentVolume>(\d+)<\/CurrentVolume>/)`, then
`parseInt(match[1], 10)`, else `null`.
-/

/-- The opening volume tag. -/
def volOpenTag : List Char := "<CurrentVolume>".toList

/-- The closing volume tag. -/
def volCloseTag : List Char := "</CurrentVolume>".toList

/-- Anchored match of `<CurrentVolume>(\d+)</CurrentVolume>` at the start of
`s`, returning the digit capture. -/
def volTagAt (s : List Char) : Option (List Char) :=
  match stripLit volOpenTag s with
  | none => none
  | some t =>
    if (t.takeWhile isDigitCh).isEmpty then none
    else
      match stripLit volCloseTag (t.drop (t.takeWhile isDigitCh).length) with
      | some _ => some (t.takeWhile isDigitCh)
      | none => none

/-- Response handling of `getVolume`: the leftmost `<CurrentVolume>` tag match
parsed as a base-10 integer, or `none` when the tag is absent. -/
def getVolume (resp : List Char) : Option Nat :=
  (scanFirst volTagAt resp).map digitsVal

/-!  ## `sendChannelNumber` (viera-client.js lines 236–242)

`for (const digit of String(channelNumber).split('')) { await
this.sendKey(`NRC_D${digit}-ONOFF`); await ...setTimeout(..., 300); }`
The `await` in the loop body makes the presses strictly sequential; the
serialized behaviour is modelled as an ordered event trace.
-/

/-- One observable step of `sendChannelNumber`: a wire key press or a timer
pause of the given number of milliseconds. -/
inductive Ev where
  | press (token : List Char)
  | wait (ms : Nat)
deriving DecidableEq

/-- Whether a trace event is a key press. -/
def Ev.isPress : Ev → Bool
  | .press _ => true
  | .wait _ => false

/-- The digit-key token `NRC_D<digit>-ONOFF` built in the loop body. -/
def digitKeyToken (c : Char) : List Char :=
  "NRC_D".toList ++ [c] ++ "-ONOFF".toList

/-- The ordered event trace of `sendChannelNumber n`: for each decimal digit
of `n` (most significant first) a press of its digit key (routed through
`sendKey`'s normalization) followed by a 300ms pause. -/
def sendChannelNumberTrace (n : Nat) : List Ev :=
  (natToStr n).flatMap fun c =>
    [Ev.press (normalizeKey (digitKeyToken c)), Ev.wait 300]

/-- The press tokens of a trace, in order. -/
def pressTokens (t : List Ev) : List (List Char) :=
  t.filterMap fun e =>
    match e with
    | .press tok => some tok
    | .wait _ => none

/-!  ## `turnOnAppleTv` (viera-client.js lines 412–447 and 167–202)

`tryCommand('turn_on').catch(err => tryCommand('home_hold'))`, where each
`tryCommand` runs the external binary once and rejects with
``atvremote <command> failed: <error.message><'. ' + stderr if nonempty>``.
-/

/-- Outcome of one `execFile` invocation: either success with captured
streams, or a failure (non-zero exit, timeout or spawn error) with the
error message and captured stderr. -/
inductive ExecResult where
  | success (stdout stderr : List Char)
  | failure (errMsg stderr : List Char)
deriving DecidableEq

/-- The resolved value of a successful wake attempt (the source also carries
a constant field `result: 'success'`, omitted here as it never varies). -/
structure WakeResult where
  command : List Char
  raw : List Char
deriving DecidableEq

/-- First wake strategy label. -/
def turnOnCmd : List Char := "turn_on".toList

/-- Second wake strategy label. -/
def homeHoldCmd : List Char := "home_hold".toList

/-- The rejection message of a failed strategy attempt:
``atvremote <command> failed: <error.message>`` with `. <stderr>` appended
when stderr is nonempty (JS truthiness of the captured stderr string). -/
def execErrMsg (cmd msg errOut : List Char) : List Char :=
  "atvremote ".toList ++ cmd ++ " failed: ".toList ++ msg ++
    (if errOut.isEmpty then [] else ". ".toList ++ errOut)

/-- One strategy attempt (`tryCommand`): success resolves with the strategy
label and trimmed stdout; failure rejects with the formatted error. -/
def tryCommand (cmd : List Char) (r : ExecResult) : Except (List Char) WakeResult :=
  match r with
  | .success out _ => .ok ⟨cmd, jsTrim out⟩
  | .failure msg errOut => .error (execErrMsg cmd msg errOut)

/-- The wake cascade: try `turn_on`; only on its rejection try `home_hold`
(`.catch`). -/
def turnOnAppleTv (r1 r2 : ExecResult) : Except (List Char) WakeResult :=
  match tryCommand turnOnCmd r1 with
  | .ok v => .ok v
  | .error _ => tryCommand homeHoldCmd r2

/-- Which strategy invocations actually occur: `home_hold` runs only when the
`turn_on` promise rejects (`.catch` is skipped on success). -/
def attemptedCommands (r1 _r2 : ExecResult) : List (List Char) :=
  match tryCommand turnOnCmd r1 with
  | .ok _ => [turnOnCmd]
  | .error _ => [turnOnCmd, homeHoldCmd]

/-!  ## `_extractCredentials` (viera-client.js lines 587–597)

Stage 1: first line matching `/[Cc]redentials?:\s*(.+)/`, value
`match[1].trim()`.  Stage 2: scanning from the last line backwards, the first
line fully matching `/^[0-9a-fA-F:]+$/` with length > 20.  Otherwise `null`.
-/

/-- After an initial `C`/`c`, match `redentials?:` then `\s*(.+)`, returning
the trimmed capture (`s?` is greedy; both spellings accepted). -/
def credAfterHead (s : List Char) : Option (List Char) :=
  match stripLit "redential".toList s with
  | none => none
  | some t =>
    match t with
    | 's' :: ':' :: rest => (wsCapture rest).map jsTrim
    | ':' :: rest => (wsCapture rest).map jsTrim
    | _ => none

/-- Anchored match of `[Cc]redentials?:\s*(.+)` at the start of `s`. -/
def credAt (s : List Char) : Option (List Char) :=
  match s with
  | c :: rest => if c = 'C' || c = 'c' then credAfterHead rest else none
  | [] => none

/-- Stage-1 line test: leftmost `credentials:`-label match on one line. -/
def credMatchLine (line : List Char) : Option (List Char) :=
  scanFirst credAt line

/-- Character class `[0-9a-fA-F:]`. -/
def isHexColonCh (c : Char) : Bool :=
  isDigitCh c || ('a' ≤ c && c ≤ 'f') || ('A' ≤ c && c ≤ 'F') || c = ':'

/-- Stage-2 line test: the whole line is a hex-colon token longer than 20
characters. -/
def isLongHexLine (l : List Char) : Bool :=
  !l.isEmpty && l.all isHexColonCh && decide (20 < l.length)

/-- Line preprocessing `output.split('\n').map(l => l.trim()).filter(l => l)`. -/
def prepLines (out : List Char) : List (List Char) :=
  ((splitNl out).map jsTrim).filter (fun l => !l.isEmpty)

/-- Credential extraction `_extractCredentials`: the first `credentials:`-labelled line's value,
else the last long hex-colon line, else `none`. -/
def extractCredentials (out : List Char) : Option (List Char) :=
  match (prepLines out).findSome? credMatchLine with
  | some v => some v
  | none => (prepLines out).reverse.find? isLongHexLine

/-!  ## `scanAppleTvs` output parsing (viera-client.js lines 452–473)

`stdout.split(/\n\s*\n/)`, then per block the case-insensitive captures of
`/Name:\s*(.+)/i`, `/Identifier:\s*(.+)/i`, `/Address:\s*(.+)/i`; a device is
kept only when both the name and identifier captures are truthy.
-/

/-- Anchored match of the block separator `\n\s*\n` at the start of `s`,
returning the remainder after the match.  The greedy `\s*` backtracks so the
separator extends through the last newline of the whitespace run following
the first newline. -/
def sepAt (s : List Char) : Option (List Char) :=
  match s with
  | c :: t =>
    if c = '\n' then
      let p := t.takeWhile isWs
      match p.reverse.findIdx? (fun x => x = '\n') with
      | some r => some (t.drop (p.length - r))
      | none => none
    else none
  | [] => none

/-- JS `String.prototype.split` with a regex separator: repeatedly find the
leftmost separator match and cut there (fuel-driven; each step consumes at
least one character, so the wrapper's fuel of `length + 1` always suffices). -/
def splitBlocksF : Nat → List Char → List Char → List (List Char)
  | 0, s, acc => [acc.reverse ++ s]
  | fuel + 1, s, acc =>
    match s with
    | [] => [acc.reverse]
    | c :: rest =>
      match sepAt (c :: rest) with
      | some rem => acc.reverse :: splitBlocksF fuel rem []
      | none => splitBlocksF fuel rest (c :: acc)

/-- Block splitting `stdout.split(/\n\s*\n/)`. -/
def splitBlocks (s : List Char) : List (List Char) :=
  splitBlocksF (s.length + 1) s []

/-- Anchored match of `<label>\s*(.+)` (label caseless) at the start of `s`. -/
def labelAt (label : List Char) (s : List Char) : Option (List Char) :=
  match stripCaseless label s with
  | some t => wsCapture t
  | none => none

/-- Capture of `block.match(/<label>\s*(.+)/i)`: leftmost caseless label match. -/
def matchLabel (label : List Char) (block : List Char) : Option (List Char) :=
  scanFirst (labelAt label) block

/-- A discovered device candidate. -/
structure Device where
  name : List Char
  identifier : List Char
  address : List Char
deriving DecidableEq

/-- Per-block parsing of `scanAppleTvs`: requires truthy `Name:` and
`Identifier:` captures; the `Address:` capture is optional and defaults to
the empty string; all three fields are trimmed. -/
def parseBlock (block : List Char) : Option Device :=
  match matchLabel "Name:".toList block, matchLabel "Identifier:".toList block with
  | some n, some i =>
    if n.isEmpty || i.isEmpty then none
    else some ⟨jsTrim n, jsTrim i, jsTrim ((matchLabel "Address:".toList block).getD [])⟩
  | _, _ => none

/-- The device list produced by `scanAppleTvs` from the scan stdout. -/
def scanParse (stdout : List Char) : List Device :=
  (splitBlocks stdout).filterMap parseBlock

/-!  ## Pairing handlers (viera-client.js lines 478–597)  -/

/-- JS truthiness of `_extractCredentials`' result (`null` and the empty
string are falsy). -/
def jsTruthy (o : Option (List Char)) : Bool :=
  match o with
  | some c => !c.isEmpty
  | none => false

/-- A successful pairing resolution. -/
inductive PairOutcome where
  | paired (credentials : List Char)
deriving DecidableEq

/-- The rejection message built by `pairStart`'s exit handler. -/
def pairStartErr (output : List Char) (code : Int) : List Char :=
  "Pairing failed (exit ".toList ++ intToStr code ++ "): ".toList ++ output.take 300

/-- Exit handler of `pairStart` (lines 525–536), reached when the process
terminates before any PIN prompt: resolve `paired` only when credential
extraction yields a truthy string, otherwise reject — regardless of the exit
code. -/
def pairStartOnExit (output : List Char) (code : Int) : Except (List Char) PairOutcome :=
  let cred := extractCredentials output
  if jsTruthy cred then .ok (.paired (cred.getD [])) else .error (pairStartErr output code)

/-- The rejection message built by `pairFinish`'s exit handler. -/
def pairFinishErr (output : List Char) (code : Int) : List Char :=
  "Pairing failed after PIN (exit ".toList ++ intToStr code ++ "): ".toList ++ output.take 300

/-- Exit handler of `pairFinish` (lines 564–576): truthy credentials pair;
otherwise a zero exit still yields a best-effort `paired` with the trimmed
raw output; otherwise reject. -/
def pairFinishOnExit (output : List Char) (code : Int) : Except (List Char) PairOutcome :=
  let cred := extractCredentials output
  if jsTruthy cred then .ok (.paired (cred.getD []))
  else if code = 0 then .ok (.paired (jsTrim output))
  else .error (pairFinishErr output code)

/-- The subprocess handle state visible to `pairFinish`'s guard.  Node sets
`killed` only after a successful `kill()` call; it does not indicate that the
process has actually terminated, so a process that exited on its own carries
`killed = false`.  The `exitedOnOwn` flag records actual termination and is
never read by the source. -/
structure ProcHandle where
  killed : Bool
  exitedOnOwn : Bool
deriving DecidableEq

/-- Actions `pairFinish` performs on the subprocess after its guard. -/
inductive ProcAction where
  | attachListeners
  | writeStdin
deriving DecidableEq

/-- The synchronous first steps of `pairFinish` (lines 543–585): the guard
`if (!pairProcess || pairProcess.killed) throw` fires before anything touches
the process; past the guard, listeners are attached and the PIN is written to
the subprocess's stdin. -/
def pairFinishFirstSteps (p : Option ProcHandle) : Except (List Char) (List ProcAction) :=
  match p with
  | none => .error "No active pairing process".toList
  | some pr =>
    if pr.killed then .error "No active pairing process".toList
    else .ok [ProcAction.attachListeners, ProcAction.writeStdin]

end Viera

namespace Viera

/-- The decimal-digit list of `n` is well formed: every entry is a digit and,
for positive `n`, the leading digit is nonzero; folding the digits back in
base 10 recovers `n`. -/
theorem natDigitsF_spec (fuel n : Nat) (h : n < fuel) :
    (∀ d ∈ natDigitsF fuel n, d < 10) ∧
      (natDigitsF fuel n).foldl (fun a d => 10 * a + d) 0 = n ∧
      natDigitsF fuel n ≠ [] ∧
      (0 < n → (natDigitsF fuel n).head? ≠ some 0) := by
  induction fuel generalizing n with
  | zero => omega
  | succ fuel ih =>
    by_cases hn : n < 10
    · refine ⟨?_, ?_, ?_, ?_⟩
      · intro d hd
        simp [natDigitsF, hn] at hd
        omega
      · simp [natDigitsF, hn]
      · simp [natDigitsF, hn]
      · intro hpos
        simp [natDigitsF, hn]
        omega
    · have hdiv : n / 10 < fuel := by omega
      obtain ⟨hlt, hfold, hne, hhd⟩ := ih (n / 10) hdiv
      have hfold' :
          (natDigitsF fuel (n / 10) ++ [n % 10]).foldl (fun a d => 10 * a + d) 0 = n := by
        rw [List.foldl_append, hfold]
        simp
        omega
      refine ⟨?_, ?_, ?_, ?_⟩
      · intro d hd
        simp [natDigitsF, hn] at hd
        rcases hd with hd | hd
        · exact hlt d hd
        · omega
      · simpa [natDigitsF, hn] using hfold'
      · simp [natDigitsF, hn]
      · intro _
        have hpos : 0 < n / 10 := by omega
        simp [natDigitsF, hn]
        cases hcons : natDigitsF fuel (n / 10) with
        | nil => exact absurd hcons hne
        | cons a t =>
          have := hhd hpos
          rw [hcons] at this
          simp at this ⊢
          simpa using this

/-- A list is a `isPrefixOf`-prefix of itself followed by anything. -/
theorem isPrefixOf_append_self (p s : List Char) : p.isPrefixOf (p ++ s) = true := by
  induction p with
  | nil => simp [List.isPrefixOf]
  | cons c cs ih => simp [List.isPrefixOf, ih]

/-- Digit characters decode back to their digit value. -/
theorem digitVal_digitCh (d : Nat) (h : d < 10) : digitVal (digitCh d) = d := by
  interval_cases d <;> rfl

/-- Digit characters satisfy the digit character class. -/
theorem isDigitCh_digitCh (d : Nat) (h : d < 10) : isDigitCh (digitCh d) = true := by
  interval_cases d <;> rfl

/-- Folding the character decoding agrees with folding the digits. -/
theorem foldl_map_digitCh (ds : List Nat) (a : Nat) (h : ∀ d ∈ ds, d < 10) :
    (ds.map digitCh).foldl (fun x c => 10 * x + digitVal c) a
      = ds.foldl (fun x d => 10 * x + d) a := by
  induction ds generalizing a with
  | nil => rfl
  | cons d t ih =>
    have hd : d < 10 := h d (by simp)
    simp [digitVal_digitCh d hd]
    exact ih _ (fun x hx => h x (by simp [hx]))

/-- Round trip: parsing the decimal representation of `m` yields `m`. -/
theorem digitsVal_natToStr (m : Nat) : digitsVal (natToStr m) = m := by
  obtain ⟨hlt, hfold, -, -⟩ := natDigitsF_spec (m + 1) m (by omega)
  unfold digitsVal natToStr natDigits
  rw [foldl_map_digitCh _ _ hlt]
  exact hfold

/-- Stripping a literal off itself followed by a tail succeeds with the tail. -/
theorem stripLit_append (p s : List Char) : stripLit p (p ++ s) = some s := by
  induction p with
  | nil => rfl
  | cons c cs ih => simpa [stripLit] using ih

/-- A successful literal strip decomposes the input. -/
theorem stripLit_eq_some (p : List Char) :
    ∀ {s t : List Char}, stripLit p s = some t → s = p ++ t := by
  induction p with
  | nil => intro s t h; simpa [stripLit] using h
  | cons c cs ih =>
    intro s t h
    cases s with
    | nil => simp [stripLit] at h
    | cons b bs =>
      by_cases hb : b = c
      · subst hb
        simp [stripLit] at h
        simpa using ih h
      · simp [stripLit, hb] at h

/-- Taking while a predicate holds stops exactly at the first failure. -/
theorem takeWhile_append_cons (pr : Char → Bool) (ds : List Char)
    (h : ∀ c ∈ ds, pr c = true) (hd : Char) (hh : pr hd = false) (rest : List Char) :
    (ds ++ hd :: rest).takeWhile pr = ds := by
  induction ds with
  | nil => simp [List.takeWhile_cons, hh]
  | cons c cs ih =>
    have hc : pr c = true := h c (by simp)
    simp [List.takeWhile_cons, hc]
    exact ih fun x hx => h x (by simp [hx])

/-- A list is its `takeWhile` prefix followed by the rest. -/
theorem takeWhile_append_drop (pr : Char → Bool) (l : List Char) :
    l.takeWhile pr ++ l.drop (l.takeWhile pr).length = l := by
  induction l with
  | nil => rfl
  | cons c cs ih =>
    by_cases hc : pr c
    · simpa [List.takeWhile_cons, hc] using ih
    · simp [List.takeWhile_cons, hc]

/-- A successful leftmost scan happens at some split of the input. -/
theorem scanFirst_eq_some {α : Type} {f : List Char → Option α} :
    ∀ {l : List Char} {v : α}, scanFirst f l = some v →
      ∃ pre suf, l = pre ++ suf ∧ f suf = some v := by
  intro l
  induction l with
  | nil => intro v h; simp [scanFirst] at h
  | cons c rest ih =>
    intro v h
    cases hf : f (c :: rest) with
    | some w =>
      simp only [scanFirst, hf] at h
      rw [← h]
      exact ⟨[], c :: rest, rfl, hf⟩
    | none =>
      simp only [scanFirst, hf] at h
      obtain ⟨pre, suf, heq, hs⟩ := ih h
      exact ⟨c :: pre, suf, by simp [heq], hs⟩

/-- A failed leftmost scan means the pattern fails at every nonempty suffix. -/
theorem scanFirst_eq_none {α : Type} {f : List Char → Option α} :
    ∀ {l : List Char}, scanFirst f l = none →
      ∀ pre suf, l = pre ++ suf → suf ≠ [] → f suf = none := by
  intro l
  induction l with
  | nil =>
    intro _ pre suf heq hne
    rcases List.append_eq_nil.mp heq.symm with ⟨-, h2⟩
    exact absurd h2 hne
  | cons c rest ih =>
    intro h pre suf heq hne
    cases hf : f (c :: rest) with
    | some w =>
      simp [scanFirst, hf] at h
    | none =>
      simp only [scanFirst, hf] at h
      cases pre with
      | nil =>
        simp at heq
        rw [heq] at hf
        exact hf
      | cons p ps =>
        simp at heq
        exact ih h ps suf heq.2 hne

/-- Characterization of `List.findSome?` succeeding: the witness comes from
the earliest element the function accepts. -/
theorem findSome?_eq_some_iff {α β : Type} (f : β → Option α) :
    ∀ (l : List β) (v : α), l.findSome? f = some v ↔
      ∃ l1 x l2, l = l1 ++ x :: l2 ∧ f x = some v ∧ ∀ y ∈ l1, f y = none := by
  intro l
  induction l with
  | nil =>
    intro v
    constructor
    · intro h; simp [List.findSome?] at h
    · rintro ⟨l1, x, l2, heq, -, -⟩
      exact absurd heq.symm (by simp)
  | cons b t ih =>
    intro v
    constructor
    · intro h
      cases hfb : f b with
      | some w =>
        rw [List.findSome?, hfb] at h
        refine ⟨[], b, t, rfl, ?_, by simp⟩
        rw [hfb]
        exact h
      | none =>
        rw [List.findSome?, hfb] at h
        obtain ⟨l1, x, l2, heq, hx, hnone⟩ := (ih v).mp h
        refine ⟨b :: l1, x, l2, by simp [heq], hx, ?_⟩
        intro y hy
        rcases List.mem_cons.mp hy with hy | hy
        · rw [hy]; exact hfb
        · exact hnone y hy
    · rintro ⟨l1, x, l2, heq, hx, hnone⟩
      rw [List.findSome?]
      cases l1 with
      | nil =>
        simp at heq
        rw [← heq.1] at hx
        rw [hx]
      | cons p ps =>
        simp at heq
        have hpb : f b = none := by
          rw [heq.1]
          exact hnone p (by simp)
        rw [hpb]
        exact (ih v).mpr ⟨ps, x, l2, heq.2, hx, fun y hy => hnone y (by simp [hy])⟩

/-- Characterization of `List.find?` succeeding: the witness is the earliest
element satisfying the predicate. -/
theorem find?_eq_some_iff {β : Type} (p : β → Bool) :
    ∀ (l : List β) (v : β), l.find? p = some v ↔
      ∃ l1 l2, l = l1 ++ v :: l2 ∧ p v = true ∧ ∀ y ∈ l1, p y = false := by
  intro l
  induction l with
  | nil =>
    intro v
    constructor
    · intro h; simp [List.find?] at h
    · rintro ⟨l1, l2, heq, -, -⟩
      exact absurd heq.symm (by simp)
  | cons b t ih =>
    intro v
    constructor
    · intro h
      by_cases hpb : p b
      · rw [List.find?_cons_of_pos _ hpb] at h
        refine ⟨[], t, ?_, ?_, by simp⟩
        · simp at h; simp [h]
        · simp at h; rw [← h]; exact hpb
      · rw [List.find?_cons_of_neg _ (by simpa using hpb)] at h
        obtain ⟨l1, l2, heq, hv, hnone⟩ := (ih v).mp h
        refine ⟨b :: l1, l2, by simp [heq], hv, ?_⟩
        intro y hy
        rcases List.mem_cons.mp hy with hy | hy
        · rw [hy]; simpa using hpb
        · exact hnone y hy
    · rintro ⟨l1, l2, heq, hv, hnone⟩
      cases l1 with
      | nil =>
        simp at heq
        have hpb : p b = true := by rw [heq.1]; exact hv
        rw [List.find?_cons_of_pos _ hpb, heq.1]
      | cons p1 ps =>
        simp at heq
        have hpb : p b = false := by rw [heq.1]; exact hnone p1 (by simp)
        rw [List.find?_cons_of_neg _ (by simp [hpb])]
        exact (ih v).mpr ⟨ps, l2, heq.2, hv, fun y hy => hnone y (by simp [hy])⟩

/-- C9: `sendKey` normalizes a bare key name into `NRC_<NAME>-ONOFF` exactly
when the name is not already `NRC_`-prefixed, passes an already-prefixed
token through unchanged, the result always carries the `NRC_` head (hence
normalization is idempotent), and `VOLUP` and `NRC_VOLUP-ONOFF` produce the
identical wire key-event token. -/
theorem sendKey_normalization (k : List Char) :
    nrcHead.isPrefixOf (normalizeKey k) = true ∧
    normalizeKey (normalizeKey k) = normalizeKey k ∧
    (nrcHead.isPrefixOf k = true → normalizeKey k = k) ∧
    (nrcHead.isPrefixOf k = false →
      normalizeKey k = nrcHead ++ k ++ "-ONOFF".toList) ∧
    normalizeKey "VOLUP".toList = normalizeKey "NRC_VOLUP-ONOFF".toList := by
  have hhead : ∀ m : List Char, nrcHead.isPrefixOf (normalizeKey m) = true := by
    intro m
    by_cases hm : nrcHead.isPrefixOf m
    · simp [normalizeKey, hm]
    · have h1 : normalizeKey m = nrcHead ++ m ++ "-ONOFF".toList := by
        simp [normalizeKey, hm]
      rw [h1, List.append_assoc]
      exact isPrefixOf_append_self _ _
  refine ⟨hhead k, ?_, ?_, ?_, by decide⟩
  · by_cases hk : nrcHead.isPrefixOf k
    · simp [normalizeKey, hk]
    · have h1 : normalizeKey k = nrcHead ++ k ++ "-ONOFF".toList := by
        simp [normalizeKey, hk]
      rw [h1]
      have h2 : nrcHead.isPrefixOf (nrcHead ++ k ++ "-ONOFF".toList) = true := by
        rw [List.append_assoc]
        exact isPrefixOf_append_self _ _
      simp [normalizeKey, h2]
  · intro h; simp [normalizeKey, h]
  · intro h; simp [normalizeKey, h]

/-- C9 witness: the two spec examples, with each hypothesis discharged
concretely. -/
theorem sendKey_normalization_witness :
    normalizeKey "VOLUP".toList = nrcHead ++ "VOLUP".toList ++ "-ONOFF".toList ∧
    normalizeKey "NRC_VOLUP-ONOFF".toList = "NRC_VOLUP-ONOFF".toList :=
  ⟨(sendKey_normalization "VOLUP".toList).2.2.2.1 (by decide),
   (sendKey_normalization "NRC_VOLUP-ONOFF".toList).2.2.1 (by decide)⟩

/-- C3: `isAvailable` never rejects — every outcome of the GET (any response
status, connection error, timeout) resolves to a boolean — and it resolves
`true` exactly when the HTTP status is 200. -/
theorem isAvailable_total (o : HttpOutcome) :
    (∃ b, isAvailable o = .ok b) ∧
    (isAvailable o = .ok true ↔ o.statusOf = some 200) := by
  cases o with
  | response s body =>
    refine ⟨⟨decide (s = 200), by simp [isAvailable]⟩, ?_⟩
    simp [isAvailable, HttpOutcome.statusOf]
  | connError m => exact ⟨⟨false, rfl⟩, by simp [isAvailable, HttpOutcome.statusOf]⟩
  | timedOut => exact ⟨⟨false, rfl⟩, by simp [isAvailable, HttpOutcome.statusOf]⟩

/-- C3 witness: connection refusal, timeout and HTTP 500 all resolve `false`;
HTTP 200 resolves `true` (via the theorem). -/
theorem isAvailable_total_witness :
    isAvailable (.connError "ECONNREFUSED".toList) = .ok false ∧
    isAvailable .timedOut = .ok false ∧
    isAvailable (.response 500 []) = .ok false ∧
    isAvailable (.response 200 []) = .ok true :=
  ⟨rfl, rfl, rfl, (isAvailable_total (.response 200 [])).2.mpr rfl⟩

/-- C1: for every volume input `v`, `setVolume v` transmits a `DesiredVolume`
equal to `clamp(round(v), 0, 100)`: the body embeds the decimal numeral of
that value, the value lies in `[0, 100]`, the numeral decodes back to the
value, and `round` is within `1/2` of `v` (a nearest integer). -/
theorem setVolume_clamps (v : ℚ) :
    setVolumeBody v =
      "<InstanceID>0</InstanceID><Channel>Master</Channel><DesiredVolume>".toList
        ++ natToStr (specClamp (jsRound v) 0 100).toNat
        ++ "</DesiredVolume>".toList ∧
    0 ≤ specClamp (jsRound v) 0 100 ∧ specClamp (jsRound v) 0 100 ≤ 100 ∧
    digitsVal (natToStr (specClamp (jsRound v) 0 100).toNat)
      = (specClamp (jsRound v) 0 100).toNat ∧
    |v - (jsRound v : ℚ)| ≤ 1 / 2 := by
  have hlevel : setVolumeLevel v = specClamp (jsRound v) 0 100 := by
    unfold setVolumeLevel specClamp
    by_cases h1 : jsRound v < 0
    · rw [if_pos h1, min_eq_right (by omega : jsRound v ≤ (100 : ℤ)),
        max_eq_left (by omega : jsRound v ≤ (0 : ℤ))]
    · by_cases h2 : (100 : ℤ) < jsRound v
      · rw [if_neg h1, if_pos h2, min_eq_left (by omega : (100 : ℤ) ≤ jsRound v),
          max_eq_right (by omega : (0 : ℤ) ≤ 100)]
      · rw [if_neg h1, if_neg h2, min_eq_right (by omega : jsRound v ≤ (100 : ℤ)),
          max_eq_right (by omega : (0 : ℤ) ≤ jsRound v)]
  have hnonneg : 0 ≤ specClamp (jsRound v) 0 100 := by
    unfold specClamp; split_ifs <;> omega
  have hle : specClamp (jsRound v) 0 100 ≤ 100 := by
    unfold specClamp; split_ifs <;> omega
  refine ⟨?_, hnonneg, hle, digitsVal_natToStr _, ?_⟩
  · unfold setVolumeBody
    rw [hlevel]
    have : intToStr (specClamp (jsRound v) 0 100)
        = natToStr (specClamp (jsRound v) 0 100).toNat := by
      simp [intToStr, not_lt.mpr hnonneg]
    rw [this]
  · have h1 : ((jsRound v : ℤ) : ℚ) ≤ v + 1 / 2 := by
      unfold jsRound; exact Int.floor_le _
    have h2 : v + 1 / 2 < ((jsRound v : ℤ) : ℚ) + 1 := by
      unfold jsRound; exact Int.lt_floor_add_one _
    rw [abs_le]
    constructor <;> linarith

/-- Normalization leaves the digit-key tokens of `sendChannelNumber`
unchanged, as they already carry the `NRC_` head. -/
theorem normalizeKey_digitKeyToken (c : Char) :
    normalizeKey (digitKeyToken c) = digitKeyToken c := by
  have h : nrcHead.isPrefixOf (digitKeyToken c) = true := rfl
  simp [normalizeKey, h]

/-- The presses of the channel-entry trace are exactly the digit-key tokens,
in digit order. -/
theorem pressTokens_digitTrace (ds : List Char) :
    pressTokens (ds.flatMap fun c =>
        [Ev.press (normalizeKey (digitKeyToken c)), Ev.wait 300])
      = ds.map digitKeyToken := by
  induction ds with
  | nil => rfl
  | cons c t ih =>
    simp only [List.flatMap_cons]
    simp [pressTokens, normalizeKey_digitKeyToken] at ih ⊢
    exact ih

/-- In the channel-entry trace every press is immediately followed by the
fixed 300ms pause. -/
theorem press_then_wait (ds : List Char) :
    ∀ i e, (ds.flatMap fun c =>
        [Ev.press (normalizeKey (digitKeyToken c)), Ev.wait 300])[i]? = some e →
      e.isPress = true →
      (ds.flatMap fun c =>
        [Ev.press (normalizeKey (digitKeyToken c)), Ev.wait 300])[i + 1]?
        = some (Ev.wait 300) := by
  induction ds with
  | nil => intro i e h hp; simp at h
  | cons c t ih =>
    intro i e h hp
    match i with
    | 0 => simp [List.flatMap_cons]
    | 1 =>
      simp [List.flatMap_cons] at h
      rw [← h] at hp
      simp [Ev.isPress] at hp
    | k + 2 =>
      simp only [List.flatMap_cons, List.cons_append, List.getElem?_cons_succ] at h ⊢
      exact ih k e h hp

/-- The digit characters of the decimal representation of `n`. -/
theorem natToStr_digit_props (n : Nat) (h : 0 < n) :
    (∀ c ∈ natToStr n, isDigitCh c = true) ∧
    natToStr n ≠ [] ∧ (natToStr n).head? ≠ some '0' := by
  obtain ⟨hlt, -, hne, hhd⟩ := natDigitsF_spec (n + 1) n (by omega)
  have hhd' := hhd h
  unfold natToStr natDigits
  refine ⟨?_, by simpa using hne, ?_⟩
  · intro c hc
    obtain ⟨d, hd, rfl⟩ := List.mem_map.mp hc
    exact isDigitCh_digitCh d (hlt d hd)
  · cases hds : natDigitsF (n + 1) n with
    | nil => exact absurd hds hne
    | cons d t =>
      rw [hds] at hhd'
      simp at hhd'
      have hd10 : d < 10 := hlt d (by rw [hds]; simp)
      simp
      intro hch
      interval_cases d
      · exact hhd' rfl
      all_goals exact absurd hch (by decide)

/-- C2: for every positive `n`, `sendChannelNumber n` issues exactly one key
press per decimal digit of `n` (token `NRC_D<digit>-ONOFF`), most significant
digit first — the pressed digit string is all digits, nonempty, has no
leading zero, and decodes back to `n` — and in the strictly sequential event
trace every press is immediately followed by the fixed 300ms pause, so
consecutive presses are separated by 300ms and never overlap. -/
theorem sendChannelNumber_per_digit (n : Nat) (h : 0 < n) :
    pressTokens (sendChannelNumberTrace n) = (natToStr n).map digitKeyToken ∧
    (∀ c ∈ natToStr n, isDigitCh c = true) ∧
    natToStr n ≠ [] ∧
    (natToStr n).head? ≠ some '0' ∧
    digitsVal (natToStr n) = n ∧
    (∀ i e, (sendChannelNumberTrace n)[i]? = some e → e.isPress = true →
      (sendChannelNumberTrace n)[i + 1]? = some (Ev.wait 300)) := by
  obtain ⟨hall, hne, hhd⟩ := natToStr_digit_props n h
  exact ⟨pressTokens_digitTrace (natToStr n), hall, hne, hhd,
    digitsVal_natToStr n, press_then_wait (natToStr n)⟩

/-- C2 witness: `sendChannelNumber 123` issues exactly three presses for the
digits 1, 2, 3 in that order, each followed by the 300ms pause. -/
theorem sendChannelNumber_per_digit_witness :
    pressTokens (sendChannelNumberTrace 123)
      = [digitKeyToken '1', digitKeyToken '2', digitKeyToken '3'] ∧
    sendChannelNumberTrace 123
      = [Ev.press (digitKeyToken '1'), Ev.wait 300,
         Ev.press (digitKeyToken '2'), Ev.wait 300,
         Ev.press (digitKeyToken '3'), Ev.wait 300] :=
  ⟨(sendChannelNumber_per_digit 123 (by decide)).1.trans (by decide), by decide⟩

/-- C4 (amended): the wake cascade tries its fixed strategy list
(`turn_on`, then `home_hold`) strictly in order, succeeds with the first
succeeding strategy's label without attempting further strategies, and when
every strategy fails it rejects with the last strategy's formatted error
(not an aggregate of the strategy count). -/
theorem turnOnAppleTv_cascade (r1 r2 : ExecResult) :
    (∀ out errS, r1 = .success out errS →
      turnOnAppleTv r1 r2 = .ok ⟨turnOnCmd, jsTrim out⟩ ∧
      attemptedCommands r1 r2 = [turnOnCmd]) ∧
    (∀ m s out errS, r1 = .failure m s → r2 = .success out errS →
      turnOnAppleTv r1 r2 = .ok ⟨homeHoldCmd, jsTrim out⟩ ∧
      attemptedCommands r1 r2 = [turnOnCmd, homeHoldCmd]) ∧
    (∀ m1 s1 m2 s2, r1 = .failure m1 s1 → r2 = .failure m2 s2 →
      turnOnAppleTv r1 r2 = .error (execErrMsg homeHoldCmd m2 s2) ∧
      attemptedCommands r1 r2 = [turnOnCmd, homeHoldCmd]) := by
  refine ⟨?_, ?_, ?_⟩
  · rintro out errS rfl
    exact ⟨rfl, rfl⟩
  · rintro m s out errS rfl rfl
    exact ⟨rfl, rfl⟩
  · rintro m1 s1 m2 s2 rfl rfl
    exact ⟨rfl, rfl⟩

/-- C4 witness: first strategy fails, second succeeds — the cascade resolves
with the second strategy's label after attempting both in order. -/
theorem turnOnAppleTv_cascade_witness :
    turnOnAppleTv (.failure "x".toList []) (.success "Done\n".toList [])
      = .ok ⟨homeHoldCmd, "Done".toList⟩ ∧
    attemptedCommands (.failure "x".toList []) (.success "Done\n".toList [])
      = [turnOnCmd, homeHoldCmd] := by
  have h := (turnOnAppleTv_cascade (.failure "x".toList [])
      (.success "Done\n".toList [])).2.1 "x".toList [] "Done\n".toList [] rfl rfl
  exact ⟨h.1, h.2⟩

/-- C4 counterexample: when both strategies fail the cascade rejects with the
`home_hold` error verbatim; the message nowhere contains the strategy count
(the character `2` does not occur), so no error aggregating the strategy
count is produced. -/
theorem turnOnAppleTv_counterexample :
    turnOnAppleTv (.failure "connect timeout".toList [])
        (.failure "connect timeout".toList [])
      = .error "atvremote home_hold failed: connect timeout".toList ∧
    ('2' ∈ "atvremote home_hold failed: connect timeout".toList → False) :=
  ⟨rfl, by decide⟩

/-- C8 (amended): `pairFinish` fails immediately with the no-active-session
error, before touching any process, exactly when the handle is absent or its
`killed` flag is set (a signal was previously sent); the guard never consults
whether the process actually terminated, so a handle whose process exited on
its own passes the guard and the PIN write proceeds. -/
theorem pairFinish_guard (p : Option ProcHandle) :
    (p = none →
      pairFinishFirstSteps p = .error "No active pairing process".toList) ∧
    (∀ pr, p = some pr → pr.killed = true →
      pairFinishFirstSteps p = .error "No active pairing process".toList) ∧
    (∀ pr, p = some pr → pr.killed = false →
      pairFinishFirstSteps p
        = .ok [ProcAction.attachListeners, ProcAction.writeStdin]) ∧
    (∀ k e e', pairFinishFirstSteps (some ⟨k, e⟩)
        = pairFinishFirstSteps (some ⟨k, e'⟩)) := by
  refine ⟨?_, ?_, ?_, ?_⟩
  · rintro rfl; rfl
  · rintro pr rfl hk
    simp [pairFinishFirstSteps, hk]
  · rintro pr rfl hk
    simp [pairFinishFirstSteps, hk]
  · intro k e e'
    cases k <;> rfl

/-- C8 witness: a killed handle and an absent handle both fail immediately
with the no-active-session error. -/
theorem pairFinish_guard_witness :
    pairFinishFirstSteps (some ⟨true, true⟩)
      = .error "No active pairing process".toList ∧
    pairFinishFirstSteps none = .error "No active pairing process".toList :=
  ⟨(pairFinish_guard (some ⟨true, true⟩)).2.1 ⟨true, true⟩ rfl rfl,
   (pairFinish_guard none).1 rfl⟩

/-- C8 counterexample: a subprocess that already terminated on its own never
had a signal sent, so its `killed` flag is false; the guard does not reject
it — `pairFinish` proceeds and writes the PIN to the dead process's stdin
instead of failing with the no-active-session error. -/
theorem pairFinish_guard_counterexample :
    pairFinishFirstSteps (some ⟨false, true⟩)
      = .ok [ProcAction.attachListeners, ProcAction.writeStdin] ∧
    pairFinishFirstSteps (some ⟨false, true⟩)
      ≠ .error "No active pairing process".toList :=
  ⟨rfl, fun hcon => by simp [pairFinishFirstSteps] at hcon⟩

/-- C10: when the pairing subprocess exits before a PIN prompt, `pairStart`
resolves `Paired` exactly when credential extraction yields a truthy string;
without one it rejects with the pairing error even on exit code 0 — unlike
`pairFinish`, whose exit handler treats a zero exit without extractable
credentials as a best-effort `Paired` carrying the trimmed raw output. -/
theorem pairStart_requires_credentials (output : List Char) (code : Int) :
    ((∃ r, pairStartOnExit output code = .ok r) ↔
      jsTruthy (extractCredentials output) = true) ∧
    (jsTruthy (extractCredentials output) = false →
      pairStartOnExit output code = .error (pairStartErr output code) ∧
      pairFinishOnExit output 0 = .ok (.paired (jsTrim output))) ∧
    (∀ c, pairStartOnExit output code = .ok (.paired c) →
      extractCredentials output = some c) := by
  by_cases ht : jsTruthy (extractCredentials output) = true
  · refine ⟨⟨fun _ => ht, fun _ => ?_⟩, fun hf => ?_, fun c hc => ?_⟩
    · exact ⟨.paired ((extractCredentials output).getD []),
        by simp [pairStartOnExit, ht]⟩
    · rw [ht] at hf; exact absurd hf (by simp)
    · simp [pairStartOnExit, ht] at hc
      cases hext : extractCredentials output with
      | none => rw [hext] at ht; simp [jsTruthy] at ht
      | some x =>
        rw [hext] at hc
        simp at hc
        rw [hc]
  · have ht' : jsTruthy (extractCredentials output) = false := by
      simpa using ht
    refine ⟨⟨fun hex => ?_, fun htr => absurd htr ht⟩, fun _ => ?_, fun c hc => ?_⟩
    · obtain ⟨r, hr⟩ := hex
      simp [pairStartOnExit, ht'] at hr
    · exact ⟨by simp [pairStartOnExit, ht'], by simp [pairFinishOnExit, ht']⟩
    · simp [pairStartOnExit, ht'] at hc

/-- C10 witness: an output with no extractable credentials makes `pairStart`
reject even at exit code 0, while `pairFinish` at exit code 0 resolves
best-effort `Paired` with the trimmed output. -/
theorem pairStart_requires_credentials_witness :
    pairStartOnExit "pairing complete".toList 0
      = .error (pairStartErr "pairing complete".toList 0) ∧
    pairFinishOnExit "pairing complete".toList 0
      = .ok (.paired "pairing complete".toList) := by
  have h := (pairStart_requires_credentials "pairing complete".toList 0).2.1
    (by decide)
  exact ⟨h.1, h.2⟩

/-- C5: credential extraction is the two-stage heuristic in a fixed order:
the result is `some v` exactly when either the earliest line with a
`credentials:`-label match yields `v` (this stage wins whenever any label
line exists, in particular when both patterns appear), or no line has a label
match and `v` is the last long hex-colon line; it is `none` exactly when
neither stage matches. -/
theorem extractCredentials_two_stage (out : List Char) :
    (∀ v, extractCredentials out = some v ↔
      (∃ l1 x l2, prepLines out = l1 ++ x :: l2 ∧ credMatchLine x = some v ∧
        ∀ y ∈ l1, credMatchLine y = none) ∨
      ((∀ y ∈ prepLines out, credMatchLine y = none) ∧ isLongHexLine v = true ∧
        ∃ l1 l2, prepLines out = l1 ++ v :: l2 ∧
          ∀ y ∈ l2, isLongHexLine y = false)) ∧
    (extractCredentials out = none ↔
      (∀ y ∈ prepLines out, credMatchLine y = none) ∧
      ∀ y ∈ prepLines out, isLongHexLine y = false) := by
  cases hfs : (prepLines out).findSome? credMatchLine with
  | some w =>
    have hx : extractCredentials out = some w := by
      unfold extractCredentials
      rw [hfs]
    have hno : ¬ ∀ y ∈ prepLines out, credMatchLine y = none := by
      intro hall
      rw [List.findSome?_eq_none_iff.mpr hall] at hfs
      exact absurd hfs (by simp)
    constructor
    · intro v
      constructor
      · intro hv
        rw [hx] at hv
        simp at hv
        left
        exact (findSome?_eq_some_iff credMatchLine (prepLines out) v).mp
          (by rw [hfs, hv])
      · rintro (hdec | ⟨hall, -, -⟩)
        · have hv := (findSome?_eq_some_iff credMatchLine (prepLines out) v).mpr hdec
          rw [hfs] at hv
          rw [hx, hv]
        · exact absurd hall hno
    · constructor
      · intro hcon
        rw [hx] at hcon
        exact absurd hcon (by simp)
      · rintro ⟨hall, -⟩
        exact absurd hall hno
  | none =>
    have hall : ∀ y ∈ prepLines out, credMatchLine y = none :=
      List.findSome?_eq_none_iff.mp hfs
    have hx : extractCredentials out = (prepLines out).reverse.find? isLongHexLine := by
      unfold extractCredentials
      rw [hfs]
    have hnolabel : ∀ v, ¬ ∃ l1 x l2, prepLines out = l1 ++ x :: l2 ∧
        credMatchLine x = some v ∧ ∀ y ∈ l1, credMatchLine y = none := by
      rintro v ⟨l1, x, l2, heq, hxv, -⟩
      have hmem : x ∈ prepLines out := by rw [heq]; simp
      rw [hall x hmem] at hxv
      exact absurd hxv (by simp)
    cases hfd : (prepLines out).reverse.find? isLongHexLine with
    | some w =>
      obtain ⟨r1, r2, hrev, hpw, hnone1⟩ := (find?_eq_some_iff isLongHexLine _ w).mp hfd
      have hls : prepLines out = r2.reverse ++ w :: r1.reverse := by
        have h2 := congrArg List.reverse hrev
        simpa using h2
      constructor
      · intro v
        constructor
        · intro hv
          rw [hx, hfd] at hv
          simp at hv
          right
          subst hv
          refine ⟨hall, hpw, r2.reverse, r1.reverse, hls, ?_⟩
          intro y hy
          exact hnone1 y (List.mem_reverse.mp hy)
        · rintro (hdec | ⟨-, hhex, l1, l2, heq, hlast⟩)
          · exact absurd hdec (hnolabel v)
          · have hvfind : (prepLines out).reverse.find? isLongHexLine = some v := by
              refine (find?_eq_some_iff isLongHexLine _ v).mpr
                ⟨l2.reverse, l1.reverse, ?_, hhex, ?_⟩
              · rw [heq]; simp
              · intro y hy
                exact hlast y (List.mem_reverse.mp hy)
            rw [hfd] at hvfind
            rw [hx, hfd, hvfind]
      · constructor
        · intro hcon
          rw [hx, hfd] at hcon
          exact absurd hcon (by simp)
        · rintro ⟨-, hnohex⟩
          have hwmem : w ∈ prepLines out := by rw [hls]; simp
          rw [hnohex w hwmem] at hpw
          exact absurd hpw (by simp)
    | none =>
      have hnohex : ∀ y ∈ prepLines out, isLongHexLine y = false := by
        intro y hy
        have := List.find?_eq_none.mp hfd y (List.mem_reverse.mpr hy)
        simpa using this
      constructor
      · intro v
        constructor
        · intro hv
          rw [hx, hfd] at hv
          exact absurd hv (by simp)
        · rintro (hdec | ⟨-, hhex, l1, l2, heq, -⟩)
          · exact absurd hdec (hnolabel v)
          · have hvmem : v ∈ prepLines out := by rw [heq]; simp
            rw [hnohex v hvmem] at hhex
            exact absurd hhex (by simp)
      · rw [hx, hfd]
        exact ⟨fun _ => ⟨hall, hnohex⟩, fun _ => rfl⟩

/-- C5 witness: an output containing both a labelled `Credentials:` line and
a later long hex-colon line extracts the labelled line's value — the label
stage wins when both patterns appear. -/
theorem extractCredentials_two_stage_witness :
    extractCredentials "Old Credentials: AAA\naabbccddeeff001122334455".toList
      = some "AAA".toList ∧
    isLongHexLine "aabbccddeeff001122334455".toList = true :=
  ⟨((extractCredentials_two_stage
        "Old Credentials: AAA\naabbccddeeff001122334455".toList).1
      "AAA".toList).mpr
    (Or.inl ⟨[], "Old Credentials: AAA".toList,
      ["aabbccddeeff001122334455".toList], by decide, by decide, by simp⟩),
   by decide⟩

/-- A successful anchored volume-tag match decomposes its input into the tag,
a nonempty digit capture, the closing tag and a remainder. -/
theorem volTagAt_eq_some (s ds : List Char) (h : volTagAt s = some ds) :
    ∃ post, s = volOpenTag ++ ds ++ volCloseTag ++ post ∧
      ds ≠ [] ∧ ∀ c ∈ ds, isDigitCh c = true := by
  unfold volTagAt at h
  split at h
  · exact absurd h (by simp)
  next t hstrip =>
    split at h
    · exact absurd h (by simp)
    next hempty =>
      split at h
      next rest hclose =>
        have hds : t.takeWhile isDigitCh = ds := by simpa using h
        have hs : s = volOpenTag ++ t := stripLit_eq_some _ hstrip
        have ht : t.drop (t.takeWhile isDigitCh).length = volCloseTag ++ rest :=
          stripLit_eq_some _ hclose
        refine ⟨rest, ?_, ?_, ?_⟩
        · rw [hs, ← takeWhile_append_drop isDigitCh t, ht, hds]
          simp
        · intro hcon
          rw [hcon] at hds
          exact hempty (by rw [hds]; rfl)
        · intro c hc
          rw [← hds] at hc
          exact List.mem_takeWhile_imp hc
      · exact absurd h (by simp)

/-- Conversely, an input of that shape matches, capturing exactly the digit
run. -/
theorem volTagAt_of_decomposition (ds post : List Char) (hne : ds ≠ [])
    (hdig : ∀ c ∈ ds, isDigitCh c = true) :
    volTagAt (volOpenTag ++ ds ++ volCloseTag ++ post) = some ds := by
  have hshape : volOpenTag ++ ds ++ volCloseTag ++ post
      = volOpenTag ++ (ds ++ (volCloseTag ++ post)) := by
    simp
  have hclose : volCloseTag ++ post = '<' :: ("/CurrentVolume>".toList ++ post) := rfl
  have htake : (ds ++ (volCloseTag ++ post)).takeWhile isDigitCh = ds := by
    rw [hclose]
    exact takeWhile_append_cons isDigitCh ds hdig '<' (by decide) _
  have hdrop : (ds ++ (volCloseTag ++ post)).drop ds.length
      = volCloseTag ++ post := List.drop_left _ _
  have hds : ds.isEmpty = false := by
    cases ds with
    | nil => exact absurd rfl hne
    | cons c t => rfl
  unfold volTagAt
  rw [hshape, stripLit_append]
  simp only [htake, hdrop, stripLit_append, hds]
  rfl

/-- C7 (amended): `getVolume` extracts the value by the fixed
`<CurrentVolume>` tag match: any returned value is the decimal reading of a
digit run enclosed in the tag pair somewhere in the response, and it returns
`none` exactly when no such enclosed digit run occurs (tag absent is
"unknown", not an error).  The value is not clamped: it lies in 0..100 only
when the response carries such a value. -/
theorem getVolume_unclamped (resp : List Char) :
    (∀ v, getVolume resp = some v →
      ∃ pre ds post,
        resp = pre ++ volOpenTag ++ ds ++ volCloseTag ++ post ∧
        ds ≠ [] ∧ (∀ c ∈ ds, isDigitCh c = true) ∧ v = digitsVal ds) ∧
    (getVolume resp = none ↔
      ¬ ∃ pre ds post,
        resp = pre ++ volOpenTag ++ ds ++ volCloseTag ++ post ∧
        ds ≠ [] ∧ (∀ c ∈ ds, isDigitCh c = true)) := by
  constructor
  · intro v hv
    unfold getVolume at hv
    cases hscan : scanFirst volTagAt resp with
    | none => rw [hscan] at hv; simp at hv
    | some ds =>
      rw [hscan] at hv
      simp at hv
      obtain ⟨pre, suf, heq, hat⟩ := scanFirst_eq_some hscan
      obtain ⟨post, hsuf, hne, hdig⟩ := volTagAt_eq_some suf ds hat
      refine ⟨pre, ds, post, ?_, hne, hdig, hv.symm⟩
      rw [heq, hsuf]
      simp
  · constructor
    · rintro hnone ⟨pre, ds, post, heq, hne, hdig⟩
      unfold getVolume at hnone
      cases hscan : scanFirst volTagAt resp with
      | some w => rw [hscan] at hnone; simp at hnone
      | none =>
        have hsub := scanFirst_eq_none hscan pre
          (volOpenTag ++ ds ++ volCloseTag ++ post)
          (by rw [heq]; simp) (by simp [volOpenTag])
        rw [volTagAt_of_decomposition ds post hne hdig] at hsub
        exact absurd hsub (by simp)
    · intro hno
      unfold getVolume
      cases hscan : scanFirst volTagAt resp with
      | none => rfl
      | some ds =>
        exfalso
        obtain ⟨pre, suf, heq, hat⟩ := scanFirst_eq_some hscan
        obtain ⟨post, hsuf, hne, hdig⟩ := volTagAt_eq_some suf ds hat
        exact hno ⟨pre, ds, post, by rw [heq, hsuf]; simp, hne, hdig⟩

/-- C7 counterexample: a response carrying 150 in the tag is returned as 150
— the numeric value `getVolume` returns is not confined to 0..100. -/
theorem getVolume_counterexample :
    getVolume "<CurrentVolume>150</CurrentVolume>".toList = some 150 ∧
    ¬ (150 ≤ 100) :=
  ⟨by decide, by decide⟩

/-- C7 witness: the amended theorem applied to a well-formed response with
value 42. -/
theorem getVolume_unclamped_witness :
    ∃ pre ds post,
      "<CurrentVolume>42</CurrentVolume>".toList
        = pre ++ volOpenTag ++ ds ++ volCloseTag ++ post ∧
      ds ≠ [] ∧ (∀ c ∈ ds, isDigitCh c = true) ∧ 42 = digitsVal ds :=
  (getVolume_unclamped "<CurrentVolume>42</CurrentVolume>".toList).1 42 (by decide)

/-- C6 (amended): discovery parsing selects each block's identifier as the
capture of the first case-insensitive `Identifier:` label in the block — it
has no MAC-format preference, no handling of a multi-line `Identifiers:`
list, and no `MAC:` fallback — and a block lacking a truthy `Name:` capture
or a truthy `Identifier:` capture is dropped; every produced candidate comes
from a block of the scan output with both captures present (the address
capture optional, defaulting to empty, all fields trimmed). -/
theorem scanParse_policy (stdout : List Char) :
    (∀ d ∈ scanParse stdout, ∃ block ∈ splitBlocks stdout, ∃ n i,
      matchLabel "Name:".toList block = some n ∧
      matchLabel "Identifier:".toList block = some i ∧
      n.isEmpty = false ∧ i.isEmpty = false ∧
      d = ⟨jsTrim n, jsTrim i,
        jsTrim ((matchLabel "Address:".toList block).getD [])⟩) ∧
    (∀ block, matchLabel "Identifier:".toList block = none →
      parseBlock block = none) ∧
    (∀ block, matchLabel "Name:".toList block = none →
      parseBlock block = none) := by
  refine ⟨?_, ?_, ?_⟩
  · intro d hd
    obtain ⟨block, hbm, hpb⟩ := List.mem_filterMap.mp hd
    unfold parseBlock at hpb
    split at hpb
    next n i hn hi =>
      split at hpb
      · exact absurd hpb (by simp)
      next hcond =>
        simp at hcond
        refine ⟨block, hbm, n, i, hn, hi, ?_, ?_, ?_⟩
        · simp [hcond.1]
        · simp [hcond.2]
        · simpa using hpb.symm
    next => exact absurd hpb (by simp)
  · intro block hid
    unfold parseBlock
    rw [hid]
    cases matchLabel "Name:".toList block <;> rfl
  · intro block hname
    unfold parseBlock
    rw [hname]

/-- C6 witness: the amended drop rule applied to the spec's example block,
whose `Identifiers:` list never matches the singular `Identifier:` label. -/
theorem scanParse_policy_witness :
    parseBlock
      "Name: Living Room\nIdentifiers:\n  - AA:BB:CC:DD:EE:FF\n  - XYZ123".toList
      = none :=
  (scanParse_policy []).2.1
    "Name: Living Room\nIdentifiers:\n  - AA:BB:CC:DD:EE:FF\n  - XYZ123".toList
    (by decide)

/-- C6 counterexample: on the spec's two-identifier example block the parser
produces no candidate at all (rather than one with the MAC-form identifier):
only a singular `Identifier:` label is matched, so the block is dropped even
though its `Name:` capture is present. -/
theorem scanParse_counterexample :
    scanParse
      "Name: Living Room\nIdentifiers:\n  - AA:BB:CC:DD:EE:FF\n  - XYZ123".toList
      = [] ∧
    matchLabel "Identifier:".toList
      "Name: Living Room\nIdentifiers:\n  - AA:BB:CC:DD:EE:FF\n  - XYZ123".toList
      = none ∧
    matchLabel "Name:".toList
      "Name: Living Room\nIdentifiers:\n  - AA:BB:CC:DD:EE:FF\n  - XYZ123".toList
      = some "Living Room".toList :=
  ⟨by decide, by decide, by decide⟩

end Viera
